import Mathlib

/-!
Shallow embedding of `PyPI/visualizations/graphviz_output.py` (function
`create_graphviz`) and proofs of the specified properties of its
filtering-and-serialization pipeline.

Python dictionaries for packages have keys `id` and `name`; dependency rows
have keys `package` (the dependent, the spec's `source_id`), `needs_package`
(the dependency, the spec's `target_id`) and `times` (the spec's `weight`).
-/

namespace Graphviz

/-- A row of the `packages` table: keys `id` and `name`. -/
structure Package where
  id : Int
  name : String
deriving DecidableEq, Repr

/-- A row of the `dependencies` table: keys `package`, `needs_package`,
`times`.  `package` is the spec's `source_id`, `needs_package` the spec's
`target_id`, `times` the spec's `weight`. -/
structure Dependency where
  package : Int
  needs_package : Int
  times : Int
deriving DecidableEq, Repr

/-- Python slicing `lst[:n]` where `n` is an `int` or `None`:
`None` keeps the whole list, a nonnegative `n` keeps the first `n`
elements, a negative `n` drops the last `-n` elements (clamped at the
empty list). -/
def pySlice (l : List α) (n : Option Int) : List α :=
  match n with
  | none => l
  | some k => if 0 ≤ k then l.take k.toNat else l.take (l.length - (-k).toNat)

/-- Membership in the `save_nodes` set built by the first pruning stage:
`save_nodes.add(dep["needs_package"]); save_nodes.add(dep["package"])`
over all dependencies.  Only membership in the Python set is ever used. -/
def saveNodesMem (dependencies : List Dependency) (i : Int) : Bool :=
  dependencies.any fun dep => dep.needs_package == i || dep.package == i

/-- Appending `v` to the list stored under key `k` of an association list,
creating the key with `[v]` when absent: the semantics of
`has_dependency[dep["package"]].append(...)` / `= [...]` in the source. -/
def assocAppend (m : List (Int × List Int)) (k v : Int) : List (Int × List Int) :=
  match m with
  | [] => [(k, [v])]
  | (k₀, vs) :: rest =>
    if k₀ = k then (k₀, vs ++ [v]) :: rest else (k₀, vs) :: assocAppend rest k v

/-- Lookup in the association list (Python `dict` access). -/
def assocLookup (m : List (Int × List Int)) (k : Int) : Option (List Int) :=
  match m with
  | [] => none
  | (k₀, vs) :: rest => if k₀ = k then some vs else assocLookup rest k

/-- The `has_dependency` dict of the second pruning stage: for every
dependency that is not a self-dependency, append its `needs_package`
to the entry of its `package`. -/
def buildHasDependency (dependencies : List Dependency) : List (Int × List Int) :=
  dependencies.foldl
    (fun m dep =>
      if dep.package = dep.needs_package then m
      else assocAppend m dep.package dep.needs_package)
    []

/-- The retention test of the second pruning stage:
`pkg["id"] in has_dependency and len(has_dependency[pkg["id"]]) >= 1`. -/
def keptBySelfImport (dependencies : List Dependency) (i : Int) : Bool :=
  match assocLookup (buildHasDependency dependencies) i with
  | none => false
  | some vs => decide (1 ≤ vs.length)

/-- The package list after the two optional pruning stages (lines 84-114
of the source), before any truncation.  The first stage runs whenever
either flag is set; the second stage runs only for
`remove_only_selfimport`. -/
def prunedPackages (packages : List Package) (dependencies : List Dependency)
    (remove_no_edge remove_only_selfimport : Bool) : List Package :=
  let packages :=
    if remove_no_edge || remove_only_selfimport then
      packages.filter fun pkg => saveNodesMem dependencies pkg.id
    else packages
  if remove_only_selfimport then
    packages.filter fun pkg => keptBySelfImport dependencies pkg.id
  else packages

/-- `packages = packages[:n]` (line 116 of the source). -/
def truncatedPackages (packages : List Package) (dependencies : List Dependency)
    (n : Option Int) (remove_no_edge remove_only_selfimport : Bool) : List Package :=
  pySlice (prunedPackages packages dependencies remove_no_edge remove_only_selfimport) n

/-- The node sequence the writer actually iterates: the loop at line 124
slices `packages[:n]` a second time. -/
def finalNodes (packages : List Package) (dependencies : List Dependency)
    (n : Option Int) (remove_no_edge remove_only_selfimport : Bool) : List Package :=
  pySlice (truncatedPackages packages dependencies n remove_no_edge remove_only_selfimport) n

/-- The `pkg_ids` list collected in the node-writing loop; the source
converts it to a set used only for membership tests. -/
def pkgIds (packages : List Package) : List Int :=
  packages.map Package.id

/-- A node statement: `{pkg["id"]} [shape=point, label="{pkg["name"]}"];`. -/
def nodeLine (pkg : Package) : String :=
  toString pkg.id ++ " [shape=point, label=\"" ++ pkg.name ++ "\"];"

/-- An edge statement: `{dep['needs_package']} -> {dep['package']};`. -/
def edgeLine (dep : Dependency) : String :=
  toString dep.needs_package ++ " -> " ++ toString dep.package ++ ";"

/-- The dependencies that pass the edge-emission test at line 133:
`dep["needs_package"] in pkg_ids and dep["package"] in pkg_ids`. -/
def emittedEdges (dependencies : List Dependency) (ids : List Int) : List Dependency :=
  dependencies.filter fun dep => ids.contains dep.needs_package && ids.contains dep.package

/-- The lines of the output file, in emission order: header, one line per
final node, one line per surviving dependency, closing brace. -/
def outputLines (packages : List Package) (dependencies : List Dependency)
    (n : Option Int) (remove_no_edge remove_only_selfimport : Bool) : List String :=
  let nodes := finalNodes packages dependencies n remove_no_edge remove_only_selfimport
  "digraph python_package_dependencies \x7b"
    :: nodes.map nodeLine
    ++ (emittedEdges dependencies (pkgIds nodes)).map edgeLine
    ++ ["\x7d"]

/-- The full text written to the output file by `create_graphviz`: every
line but the closing brace ends in a newline. -/
def create_graphviz (packages : List Package) (dependencies : List Dependency)
    (n : Option Int) (remove_no_edge remove_only_selfimport : Bool) : String :=
  String.intercalate "\n"
    (outputLines packages dependencies n remove_no_edge remove_only_selfimport)

/-! ### Helper lemmas about the pipeline -/

lemma mem_pySlice {α : Type} {l : List α} {n : Option Int} {a : α}
    (h : a ∈ pySlice l n) : a ∈ l := by
  cases n with
  | none => exact h
  | some k =>
    simp only [pySlice] at h
    split at h
    · exact List.mem_of_mem_take h
    · exact List.mem_of_mem_take h

lemma saveNodesMem_iff (dependencies : List Dependency) (i : Int) :
    saveNodesMem dependencies i = true ↔
      ∃ d ∈ dependencies, d.needs_package = i ∨ d.package = i := by
  simp [saveNodesMem, List.any_eq_true]

lemma assocLookup_assocAppend (m : List (Int × List Int)) (k v j : Int) :
    assocLookup (assocAppend m k v) j =
      if j = k then some ((assocLookup m k).getD [] ++ [v])
      else assocLookup m j := by
  induction m with
  | nil =>
    by_cases h : j = k
    · subst h; simp [assocAppend, assocLookup]
    · have h' : ¬k = j := fun h₂ => h h₂.symm
      simp [assocAppend, assocLookup, h, h']
  | cons hd rest ih =>
    obtain ⟨k₀, vs⟩ := hd
    simp only [assocAppend, assocLookup]
    by_cases h₁ : k₀ = k
    · subst h₁
      by_cases h₂ : k₀ = j
      · subst h₂; simp [assocLookup]
      · have h₂' : ¬j = k₀ := fun h₃ => h₂ h₃.symm
        simp [assocLookup, h₂, h₂']
    · by_cases h₂ : k₀ = j
      · subst h₂
        have h₁' : ¬k₀ = k := h₁
        simp [assocLookup, h₁']
      · simp [assocLookup, h₁, h₂, ih]

lemma assocLookup_assocAppend_isSome (m : List (Int × List Int)) (k v j : Int) :
    (assocLookup (assocAppend m k v) j).isSome
      = ((j == k) || (assocLookup m j).isSome) := by
  rw [assocLookup_assocAppend]
  by_cases h : j = k <;> simp [h]

lemma assocLookup_assocAppend_ne_nil (m : List (Int × List Int)) (k v j : Int)
    (vs : List Int)
    (h : ∀ j vs, assocLookup m j = some vs → vs ≠ [])
    (hl : assocLookup (assocAppend m k v) j = some vs) : vs ≠ [] := by
  rw [assocLookup_assocAppend] at hl
  split at hl
  · cases hl; simp
  · exact h j vs hl

lemma buildHasDependency_go (deps : List Dependency) (m : List (Int × List Int))
    (i : Int) :
    (assocLookup
        (deps.foldl
          (fun m dep =>
            if dep.package = dep.needs_package then m
            else assocAppend m dep.package dep.needs_package)
          m) i).isSome
      = ((assocLookup m i).isSome
          || deps.any fun d => d.package == i && d.needs_package != i) := by
  induction deps generalizing m with
  | nil => simp
  | cons d ds ih =>
    simp only [List.foldl_cons, List.any_cons]
    rw [ih]
    by_cases h : d.package = d.needs_package
    · simp only [if_pos h]
      have : (d.package == i && d.needs_package != i) = false := by
        by_cases hi : d.package = i <;> simp [hi, ← h]
      rw [this, Bool.false_or]
    · simp only [if_neg h]
      rw [assocLookup_assocAppend_isSome]
      have : (d.package == i && d.needs_package != i) = (d.package == i) := by
        by_cases hi : d.package = i
        · subst hi; simp [Ne.symm h]
        · simp [hi]
      rw [this]
      by_cases hi : d.package = i
      · subst hi; simp
      · have e1 : (i == d.package) = false := by
          simpa using fun h₃ : i = d.package => hi h₃.symm
        have e2 : (d.package == i) = false := by simpa using hi
        rw [e1, e2, Bool.false_or, Bool.false_or]

lemma buildHasDependency_ne_nil (deps : List Dependency) :
    ∀ j vs, assocLookup (buildHasDependency deps) j = some vs → vs ≠ [] := by
  unfold buildHasDependency
  have go : ∀ (ds : List Dependency) (m : List (Int × List Int)),
      (∀ j vs, assocLookup m j = some vs → vs ≠ []) →
      ∀ j vs,
        assocLookup
          (ds.foldl
            (fun m dep =>
              if dep.package = dep.needs_package then m
              else assocAppend m dep.package dep.needs_package)
            m) j = some vs → vs ≠ [] := by
    intro ds
    induction ds with
    | nil => intro m hm j vs h; exact hm j vs h
    | cons d rest ih =>
      intro m hm j vs h
      simp only [List.foldl_cons] at h
      by_cases hd : d.package = d.needs_package
      · rw [if_pos hd] at h
        exact ih m hm j vs h
      · rw [if_neg hd] at h
        exact ih _ (fun j' vs' h' => assocLookup_assocAppend_ne_nil m _ _ j' vs' hm h') j vs h
  intro j vs h
  exact go deps [] (by intro j' vs' h'; cases h') j vs h

lemma buildHasDependency_isSome (deps : List Dependency) (i : Int) :
    (assocLookup (buildHasDependency deps) i).isSome
      = deps.any fun d => d.package == i && d.needs_package != i := by
  have h := buildHasDependency_go deps [] i
  simpa [buildHasDependency, assocLookup] using h

lemma keptBySelfImport_eq_any (deps : List Dependency) (i : Int) :
    keptBySelfImport deps i
      = deps.any fun d => d.package == i && d.needs_package != i := by
  have hsome := buildHasDependency_isSome deps i
  unfold keptBySelfImport
  cases hlook : assocLookup (buildHasDependency deps) i with
  | none =>
    rw [hlook] at hsome
    simp only [Option.isSome_none] at hsome
    exact hsome
  | some vs =>
    rw [hlook] at hsome
    simp only [Option.isSome_some] at hsome
    have hne : vs ≠ [] := buildHasDependency_ne_nil deps i vs hlook
    have hlen : 1 ≤ vs.length := List.length_pos.mpr hne
    rw [← hsome]
    exact decide_eq_true hlen

lemma keptBySelfImport_iff (deps : List Dependency) (i : Int) :
    keptBySelfImport deps i = true ↔
      ∃ d ∈ deps, d.package = i ∧ d.needs_package ≠ i := by
  rw [keptBySelfImport_eq_any]
  simp [List.any_eq_true]

lemma mem_finalNodes_mem_pruned {packages : List Package}
    {dependencies : List Dependency} {n : Option Int}
    {rne ros : Bool} {p : Package}
    (h : p ∈ finalNodes packages dependencies n rne ros) :
    p ∈ prunedPackages packages dependencies rne ros :=
  mem_pySlice (mem_pySlice h)

lemma contains_eq_true_of_mem {l : List Int} {a : Int} (h : a ∈ l) :
    l.contains a = true := by
  simpa using h

lemma mem_of_contains_eq_true {l : List Int} {a : Int} (h : l.contains a = true) :
    a ∈ l := by
  simpa using h

/-- A dependency of the input whose two endpoints are among the final node
ids is emitted as an edge line. -/
lemma edgeLine_mem_outputLines {packages : List Package}
    {dependencies : List Dependency} {n : Option Int} {rne ros : Bool}
    {d : Dependency} (hd : d ∈ dependencies)
    (h₁ : d.needs_package ∈ pkgIds (finalNodes packages dependencies n rne ros))
    (h₂ : d.package ∈ pkgIds (finalNodes packages dependencies n rne ros)) :
    edgeLine d ∈ outputLines packages dependencies n rne ros := by
  have hmem : d ∈ emittedEdges dependencies
      (pkgIds (finalNodes packages dependencies n rne ros)) := by
    rw [emittedEdges, List.mem_filter]
    refine ⟨hd, ?_⟩
    rw [Bool.and_eq_true]
    exact ⟨contains_eq_true_of_mem h₁, contains_eq_true_of_mem h₂⟩
  unfold outputLines
  refine List.mem_cons_of_mem _ (List.mem_append_left _ ?_)
  exact List.mem_append_right _ (List.mem_map_of_mem edgeLine hmem)

/-- On a package list that survived connectivity pruning, every member's
id occurs in some dependency. -/
lemma mem_pruned_save {packages : List Package} {dependencies : List Dependency}
    {ros : Bool} {p : Package}
    (h : p ∈ prunedPackages packages dependencies true ros) :
    saveNodesMem dependencies p.id = true := by
  simp only [prunedPackages, Bool.true_or, if_true] at h
  cases ros with
  | true =>
    rw [if_pos rfl] at h
    exact (List.mem_filter.mp (List.mem_filter.mp h).1).2
  | false =>
    rw [if_neg (by simp)] at h
    exact (List.mem_filter.mp h).2

/-! ### The claims -/

/-- C1: every edge line the writer emits has both of its ids among the ids
of the emitted node lines; a dependency with an endpoint outside the final
node set is never written. -/
theorem c1_no_dangling_edges (packages : List Package)
    (dependencies : List Dependency) (n : Option Int) (rne ros : Bool)
    (d : Dependency)
    (hd : d ∈ emittedEdges dependencies
      (pkgIds (finalNodes packages dependencies n rne ros))) :
    d.needs_package ∈ pkgIds (finalNodes packages dependencies n rne ros) ∧
      d.package ∈ pkgIds (finalNodes packages dependencies n rne ros) := by
  rw [emittedEdges, List.mem_filter, Bool.and_eq_true] at hd
  exact ⟨mem_of_contains_eq_true hd.2.1, mem_of_contains_eq_true hd.2.2⟩

/-- C1 witness: at a concrete input the one emitted edge has both endpoints
among the emitted node ids. -/
theorem c1_no_dangling_edges_witness :
    (⟨1, 2, 5⟩ : Dependency) ∈ emittedEdges [⟨1, 2, 5⟩]
        (pkgIds (finalNodes [⟨1, "a"⟩, ⟨2, "b"⟩] [⟨1, 2, 5⟩] none false false)) ∧
      ((2 : Int) ∈ pkgIds (finalNodes [⟨1, "a"⟩, ⟨2, "b"⟩] [⟨1, 2, 5⟩] none false false) ∧
        (1 : Int) ∈ pkgIds (finalNodes [⟨1, "a"⟩, ⟨2, "b"⟩] [⟨1, 2, 5⟩] none false false)) :=
  ⟨by decide,
   c1_no_dangling_edges [⟨1, "a"⟩, ⟨2, "b"⟩] [⟨1, 2, 5⟩] none false false
     ⟨1, 2, 5⟩ (by decide)⟩

/-- C2: a dependency whose two endpoints survive filtering is emitted
reversed, as the line `needs_package -> package;` (the spec's
`target_id -> source_id`). -/
theorem c2_reversed_edge_direction (packages : List Package)
    (dependencies : List Dependency) (n : Option Int) (rne ros : Bool)
    (d : Dependency) (hd : d ∈ dependencies)
    (h₁ : d.needs_package ∈ pkgIds (finalNodes packages dependencies n rne ros))
    (h₂ : d.package ∈ pkgIds (finalNodes packages dependencies n rne ros)) :
    toString d.needs_package ++ " -> " ++ toString d.package ++ ";"
      ∈ outputLines packages dependencies n rne ros :=
  edgeLine_mem_outputLines hd h₁ h₂

/-- C2 witness: the dependency (source 1, target 2) is written as the line
`2 -> 1;`. -/
theorem c2_reversed_edge_direction_witness :
    (⟨1, 2, 5⟩ : Dependency) ∈ ([⟨1, 2, 5⟩] : List Dependency) ∧
      (2 : Int) ∈ pkgIds (finalNodes [⟨1, "a"⟩, ⟨2, "b"⟩] [⟨1, 2, 5⟩] none false false) ∧
      (1 : Int) ∈ pkgIds (finalNodes [⟨1, "a"⟩, ⟨2, "b"⟩] [⟨1, 2, 5⟩] none false false) ∧
      "2 -> 1;" ∈ outputLines [⟨1, "a"⟩, ⟨2, "b"⟩] [⟨1, 2, 5⟩] none false false :=
  ⟨by decide, by decide, by decide,
   c2_reversed_edge_direction [⟨1, "a"⟩, ⟨2, "b"⟩] [⟨1, 2, 5⟩] none false false
     ⟨1, 2, 5⟩ (by decide) (by decide) (by decide)⟩

/-- C4: with `removeDisconnected = true` every emitted node's id is an
endpoint (source or target, self-dependencies included) of some dependency
of the original list. -/
theorem c4_connectivity_pruning (packages : List Package)
    (dependencies : List Dependency) (n : Option Int) (ros : Bool)
    (p : Package) (hp : p ∈ finalNodes packages dependencies n true ros) :
    ∃ d ∈ dependencies, d.package = p.id ∨ d.needs_package = p.id := by
  have hsave := mem_pruned_save (mem_finalNodes_mem_pruned hp)
  obtain ⟨d, hd, hcase⟩ := (saveNodesMem_iff dependencies p.id).mp hsave
  exact ⟨d, hd, hcase.symm⟩

/-- C4 witness: with the flag set, the sole emitted node has an incident
dependency. -/
theorem c4_connectivity_pruning_witness :
    (⟨1, "a"⟩ : Package) ∈ finalNodes [⟨1, "a"⟩, ⟨2, "b"⟩] [⟨1, 1, 4⟩] none true false ∧
      ∃ d ∈ ([⟨1, 1, 4⟩] : List Dependency), d.package = 1 ∨ d.needs_package = 1 :=
  ⟨by decide,
   c4_connectivity_pruning [⟨1, "a"⟩, ⟨2, "b"⟩] [⟨1, 1, 4⟩] none false
     ⟨1, "a"⟩ (by decide)⟩

/-- C5: with `removeSelfImportOnly = true` every emitted node has, in the
original dependency list, an outgoing dependency whose target differs from
its own id. -/
theorem c5_selfimport_pruning (packages : List Package)
    (dependencies : List Dependency) (n : Option Int) (rne : Bool)
    (p : Package) (hp : p ∈ finalNodes packages dependencies n rne true) :
    ∃ d ∈ dependencies, d.package = p.id ∧ d.needs_package ≠ p.id := by
  have h := mem_finalNodes_mem_pruned hp
  simp only [prunedPackages, Bool.or_true, if_true, if_pos rfl] at h
  exact (keptBySelfImport_iff dependencies p.id).mp (List.mem_filter.mp h).2

/-- C5 witness: the emitted node 1 has the outgoing dependency on 2. -/
theorem c5_selfimport_pruning_witness :
    (⟨1, "a"⟩ : Package) ∈ finalNodes [⟨1, "a"⟩, ⟨2, "b"⟩] [⟨1, 2, 5⟩] none false true ∧
      ∃ d ∈ ([⟨1, 2, 5⟩] : List Dependency), d.package = 1 ∧ d.needs_package ≠ 1 :=
  ⟨by decide,
   c5_selfimport_pruning [⟨1, "a"⟩, ⟨2, "b"⟩] [⟨1, 2, 5⟩] none false
     ⟨1, "a"⟩ (by decide)⟩

/-- C6: on the spec's concrete example with both flags set, the final node
set is exactly package 1 and no edge is emitted. -/
theorem c6_concrete_example :
    finalNodes [⟨1, "a"⟩, ⟨2, "b"⟩, ⟨3, "c"⟩] [⟨1, 2, 5⟩, ⟨3, 3, 1⟩] none true true
        = [⟨1, "a"⟩] ∧
      emittedEdges [⟨1, 2, 5⟩, ⟨3, 3, 1⟩]
        (pkgIds (finalNodes [⟨1, "a"⟩, ⟨2, "b"⟩, ⟨3, "c"⟩]
          [⟨1, 2, 5⟩, ⟨3, 3, 1⟩] none true true)) = [] := by
  decide

/-- C3 counterexample: the claimed formula covers every integer `maxNodes`,
but at `maxNodes = -1` with one pruned package the writer emits 0 node
lines while `min(len(finalNodes), maxNodes) = -1`: Python slicing treats a
negative bound as counting from the end, not as a minimum. -/
theorem c3_node_count_counterexample :
    ¬ (((finalNodes [⟨1, "a"⟩] [] (some (-1)) false false).length : Int)
        = min ((prunedPackages [⟨1, "a"⟩] [] false false).length : Int) (-1)) := by
  decide

/-- C3 amended: for `maxNodes` null or nonnegative the claim holds: the
writer emits exactly the first `maxNodes` pruned packages in order
(all of them when null), so the node-line count is
`min(len(prunedPackages), maxNodes)`. -/
theorem c3_node_count (packages : List Package) (dependencies : List Dependency)
    (n : Option Int) (rne ros : Bool) (h : ∀ k, n = some k → 0 ≤ k) :
    finalNodes packages dependencies n rne ros
        = (match n with
           | none => prunedPackages packages dependencies rne ros
           | some k => (prunedPackages packages dependencies rne ros).take k.toNat) ∧
      (finalNodes packages dependencies n rne ros).length
        = (match n with
           | none => (prunedPackages packages dependencies rne ros).length
           | some k =>
             min (prunedPackages packages dependencies rne ros).length k.toNat) := by
  cases n with
  | none => exact ⟨rfl, rfl⟩
  | some k =>
    have hk := h k rfl
    constructor
    · simp [finalNodes, truncatedPackages, pySlice, hk, List.take_take]
    · simp [finalNodes, truncatedPackages, pySlice, hk, List.take_take,
        List.length_take, Nat.min_comm]

/-- C3 witness: two packages, `maxNodes = 1`: exactly the first package is
kept and the node count is `min 2 1 = 1`. -/
theorem c3_node_count_witness :
    (∀ k : Int, (some 1 : Option Int) = some k → 0 ≤ k) ∧
      (finalNodes [⟨1, "a"⟩, ⟨2, "b"⟩] [] (some 1) false false
          = (prunedPackages [⟨1, "a"⟩, ⟨2, "b"⟩] [] false false).take (1 : Int).toNat ∧
        (finalNodes [⟨1, "a"⟩, ⟨2, "b"⟩] [] (some 1) false false).length
          = min (prunedPackages [⟨1, "a"⟩, ⟨2, "b"⟩] [] false false).length
              (1 : Int).toNat) :=
  ⟨fun k hk => by cases hk; decide,
   c3_node_count [⟨1, "a"⟩, ⟨2, "b"⟩] [] (some 1) false false
     (fun k hk => by cases hk; decide)⟩

/-- Reference filter written from the spec's words for the
`removeSelfImportOnly` rule alone: keep the packages having at least one
outgoing dependency on a different package, in their original order,
with no connectivity pruning. -/
def selfImportFilterSpec (packages : List Package)
    (dependencies : List Dependency) : List Package :=
  packages.filter fun pkg =>
    dependencies.any fun d => d.package == pkg.id && d.needs_package != pkg.id

/-- C7: with `removeDisconnected = false` and `removeSelfImportOnly = true`
the pruned node sequence equals the spec's reference filter that applies
the self-import-only rule alone — the connectivity stage the code also
runs in this configuration removes nothing extra. -/
theorem c7_pruning_modes_independent (packages : List Package)
    (dependencies : List Dependency) :
    prunedPackages packages dependencies false true
      = selfImportFilterSpec packages dependencies := by
  unfold prunedPackages selfImportFilterSpec
  simp only [Bool.false_or, if_true, if_pos rfl]
  rw [List.filter_filter]
  apply List.filter_congr
  intro p hp
  rw [keptBySelfImport_eq_any]
  cases hany : dependencies.any fun d => d.package == p.id && d.needs_package != p.id with
  | false => simp
  | true =>
    obtain ⟨d, hd, hcond⟩ := List.any_eq_true.mp hany
    rw [Bool.and_eq_true] at hcond
    have hsave : saveNodesMem dependencies p.id = true :=
      (saveNodesMem_iff dependencies p.id).mpr
        ⟨d, hd, Or.inr (by simpa using hcond.1)⟩
    rw [hsave, Bool.and_true]

/-- C8: the writer is deterministic — identical packages, dependencies,
node cap and flags yield byte-identical output text. -/
theorem c8_deterministic (p₁ p₂ : List Package) (d₁ d₂ : List Dependency)
    (n₁ n₂ : Option Int) (r₁ r₂ s₁ s₂ : Bool)
    (hp : p₁ = p₂) (hd : d₁ = d₂) (hn : n₁ = n₂) (hr : r₁ = r₂) (hs : s₁ = s₂) :
    create_graphviz p₁ d₁ n₁ r₁ s₁ = create_graphviz p₂ d₂ n₂ r₂ s₂ := by
  rw [hp, hd, hn, hr, hs]

/-- C8 witness: two runs at a concrete input are equal. -/
theorem c8_deterministic_witness :
    ([⟨1, "a"⟩] : List Package) = [⟨1, "a"⟩] ∧
      ([⟨1, 2, 5⟩] : List Dependency) = [⟨1, 2, 5⟩] ∧
      (some 7 : Option Int) = some 7 ∧ (true = true) ∧ (false = false) ∧
      create_graphviz [⟨1, "a"⟩] [⟨1, 2, 5⟩] (some 7) true false
        = create_graphviz [⟨1, "a"⟩] [⟨1, 2, 5⟩] (some 7) true false :=
  ⟨rfl, rfl, rfl, rfl, rfl,
   c8_deterministic [⟨1, "a"⟩] [⟨1, "a"⟩] [⟨1, 2, 5⟩] [⟨1, 2, 5⟩]
     (some 7) (some 7) true true false false rfl rfl rfl rfl rfl⟩

/-- The two id fields of a dependency, forgetting the `times` (weight)
field. -/
def depEndpoints (d : Dependency) : Int × Int :=
  (d.package, d.needs_package)

lemma any_map_comp {α β : Type} (l : List α) (f : α → β) (p : β → Bool) :
    (l.map f).any p = l.any fun a => p (f a) := by
  induction l with
  | nil => rfl
  | cons x xs ih => simp only [List.map_cons, List.any_cons, ih]

lemma saveNodesMem_congr {deps₁ deps₂ : List Dependency}
    (h : deps₁.map depEndpoints = deps₂.map depEndpoints) (i : Int) :
    saveNodesMem deps₁ i = saveNodesMem deps₂ i := by
  have e : ∀ deps : List Dependency,
      saveNodesMem deps i
        = (deps.map depEndpoints).any fun e => e.2 == i || e.1 == i := by
    intro deps
    rw [saveNodesMem, any_map_comp]
    rfl
  rw [e, e, h]

lemma keptBySelfImport_congr {deps₁ deps₂ : List Dependency}
    (h : deps₁.map depEndpoints = deps₂.map depEndpoints) (i : Int) :
    keptBySelfImport deps₁ i = keptBySelfImport deps₂ i := by
  have e : ∀ deps : List Dependency,
      keptBySelfImport deps i
        = (deps.map depEndpoints).any fun e => e.1 == i && e.2 != i := by
    intro deps
    rw [keptBySelfImport_eq_any, any_map_comp]
    rfl
  rw [e, e, h]

lemma prunedPackages_congr {deps₁ deps₂ : List Dependency}
    (h : deps₁.map depEndpoints = deps₂.map depEndpoints)
    (packages : List Package) (rne ros : Bool) :
    prunedPackages packages deps₁ rne ros = prunedPackages packages deps₂ rne ros := by
  unfold prunedPackages
  rw [show (fun pkg : Package => saveNodesMem deps₁ pkg.id)
        = (fun pkg : Package => saveNodesMem deps₂ pkg.id)
      from funext fun p => saveNodesMem_congr h p.id,
    show (fun pkg : Package => keptBySelfImport deps₁ pkg.id)
        = (fun pkg : Package => keptBySelfImport deps₂ pkg.id)
      from funext fun p => keptBySelfImport_congr h p.id]

lemma finalNodes_congr {deps₁ deps₂ : List Dependency}
    (h : deps₁.map depEndpoints = deps₂.map depEndpoints)
    (packages : List Package) (n : Option Int) (rne ros : Bool) :
    finalNodes packages deps₁ n rne ros = finalNodes packages deps₂ n rne ros := by
  unfold finalNodes truncatedPackages
  rw [prunedPackages_congr h]

lemma edgeLines_congr {deps₁ deps₂ : List Dependency}
    (h : deps₁.map depEndpoints = deps₂.map depEndpoints) (ids : List Int) :
    (emittedEdges deps₁ ids).map edgeLine = (emittedEdges deps₂ ids).map edgeLine := by
  have e : ∀ deps : List Dependency,
      (emittedEdges deps ids).map edgeLine
        = ((deps.map depEndpoints).filter
              fun e => ids.contains e.2 && ids.contains e.1).map
            fun e => toString e.2 ++ " -> " ++ toString e.1 ++ ";" := by
    intro deps
    rw [emittedEdges, List.filter_map, List.map_map]
    rfl
  rw [e, e, h]

/-- C9: the output never depends on the `times` (weight) field — inputs
equal up to weights give identical text — and the emitted edge lines are a
sublist of the original dependency sequence's lines: original order, no
deduplication, no aggregation. -/
theorem c9_weight_blind_ordered (packages : List Package)
    (deps₁ deps₂ : List Dependency) (n : Option Int) (rne ros : Bool)
    (h : deps₁.map depEndpoints = deps₂.map depEndpoints) :
    create_graphviz packages deps₁ n rne ros
        = create_graphviz packages deps₂ n rne ros ∧
      List.Sublist
        ((emittedEdges deps₁ (pkgIds (finalNodes packages deps₁ n rne ros))).map edgeLine)
        (deps₁.map edgeLine) := by
  constructor
  · have hout : outputLines packages deps₁ n rne ros
        = outputLines packages deps₂ n rne ros := by
      simp only [outputLines]
      rw [finalNodes_congr h, edgeLines_congr h]
    rw [create_graphviz, create_graphviz, hout]
  · rw [emittedEdges]
    exact (List.filter_sublist _).map edgeLine

/-- C9 witness: changing only a weight leaves the output unchanged. -/
theorem c9_weight_blind_ordered_witness :
    ([⟨1, 2, 5⟩] : List Dependency).map depEndpoints
        = ([⟨1, 2, 99⟩] : List Dependency).map depEndpoints ∧
      (create_graphviz [⟨1, "a"⟩, ⟨2, "b"⟩] [⟨1, 2, 5⟩] none false false
          = create_graphviz [⟨1, "a"⟩, ⟨2, "b"⟩] [⟨1, 2, 99⟩] none false false ∧
        List.Sublist
          ((emittedEdges [⟨1, 2, 5⟩]
              (pkgIds (finalNodes [⟨1, "a"⟩, ⟨2, "b"⟩] [⟨1, 2, 5⟩] none false false))).map
                edgeLine)
          (([⟨1, 2, 5⟩] : List Dependency).map edgeLine)) :=
  ⟨by decide,
   c9_weight_blind_ordered [⟨1, "a"⟩, ⟨2, "b"⟩] [⟨1, 2, 5⟩] [⟨1, 2, 99⟩]
     none false false (by decide)⟩

/-- C10: self-import-only pruning ignores self-dependencies only when
deciding retention; a self-dependency of a node that survives into the
final node set is still written as the line `id -> id;`. -/
theorem c10_self_edge_still_emitted (packages : List Package)
    (dependencies : List Dependency) (n : Option Int) (rne : Bool)
    (d : Dependency) (hd : d ∈ dependencies)
    (hself : d.needs_package = d.package)
    (hmem : d.package ∈ pkgIds (finalNodes packages dependencies n rne true)) :
    toString d.package ++ " -> " ++ toString d.package ++ ";"
      ∈ outputLines packages dependencies n rne true := by
  have hline := edgeLine_mem_outputLines hd (by rw [hself]; exact hmem) hmem
  rw [edgeLine, hself] at hline
  exact hline

/-- C10 witness: package 1 survives thanks to its edge to 2; its
self-dependency is still written as `1 -> 1;`. -/
theorem c10_self_edge_still_emitted_witness :
    (⟨1, 1, 1⟩ : Dependency) ∈ ([⟨1, 2, 1⟩, ⟨1, 1, 1⟩] : List Dependency) ∧
      (1 : Int) = 1 ∧
      (1 : Int) ∈ pkgIds (finalNodes [⟨1, "a"⟩, ⟨2, "b"⟩]
        [⟨1, 2, 1⟩, ⟨1, 1, 1⟩] none false true) ∧
      "1 -> 1;" ∈ outputLines [⟨1, "a"⟩, ⟨2, "b"⟩]
        [⟨1, 2, 1⟩, ⟨1, 1, 1⟩] none false true :=
  ⟨by decide, rfl, by decide,
   c10_self_edge_still_emitted [⟨1, "a"⟩, ⟨2, "b"⟩] [⟨1, 2, 1⟩, ⟨1, 1, 1⟩]
     none false ⟨1, 1, 1⟩ (by decide) rfl (by decide)⟩

end Graphviz
